import Mathlib

/-!
Verification of the places application (src/src/App.jsx).

The app state and the documents it serializes are dynamically typed
JavaScript values, so the embedding models them with a `Json` value type.
JavaScript numbers are modeled as integers (the claims under study do not
depend on fractional values), and a JavaScript string is modeled as a Lean
`String`.  Objects are association lists in insertion order, matching the
enumeration order that `JSON.stringify` uses.  `undefined` is modeled as
`Option.none` wherever a field access can miss.
-/

/-- Model of a JavaScript JSON value. -/
inductive Json where
  | null : Json
  | bool (b : Bool) : Json
  | num (n : Int) : Json
  | str (s : String) : Json
  | arr (items : List Json) : Json
  | obj (fields : List (String × Json)) : Json

/-- Lookup of a key in an object field list (first occurrence wins). -/
def getAssoc : List (String × Json) → String → Option Json
  | [], _ => none
  | (k, v) :: rest, key => if k = key then some v else getAssoc rest key

/-- Property access `x.key` : objects yield the stored field, everything
else yields `undefined` (`none`), as for property access on a primitive. -/
def jget : Json → String → Option Json
  | .obj fs, key => getAssoc fs key
  | _, _ => none

/-- Setting a key in an object field list: an existing key keeps its
position and gets the new value, a new key is appended.  This is the
JavaScript object-spread update semantics. -/
def setAssoc : List (String × Json) → String → Json → List (String × Json)
  | [], key, v => [(key, v)]
  | (k, w) :: rest, key, v =>
      if k = key then (k, v) :: rest else (k, w) :: setAssoc rest key v

/-- Model of the spread update `\x7b ...l, key: v \x7d`. -/
def jsonSet (j : Json) (key : String) (v : Json) : Json :=
  Json.obj (setAssoc (match j with | .obj fs => fs | _ => []) key v)

/-- JavaScript truthiness of a defined value. -/
def truthy : Json → Bool
  | .null => false
  | .bool b => b
  | .num n => n != 0
  | .str s => s != ""
  | .arr _ => true
  | .obj _ => true

/-- Truthiness of a possibly-undefined value. -/
def truthyO : Option Json → Bool
  | none => false
  | some v => truthy v

/-- Model of `a || b` on possibly-undefined values. -/
def jsOr2 (a b : Option Json) : Option Json :=
  if truthyO a then a else b

/-- Model of `a || b` where the right operand is a defined value, so the
result is defined. -/
def jsOrJ (a : Option Json) (b : Json) : Json :=
  if truthyO a then a.getD b else b

/-- Model of the nullish coalescing `a ?? d`. -/
def nullishD (o : Option Json) (d : Json) : Json :=
  match o with
  | some .null => d
  | some v => v
  | none => d

/-- Characters stripped by the JavaScript `String.prototype.trim`. -/
def isJsWs (c : Char) : Bool :=
  c = ' ' || c = '\t' || c = '\n' || c = '\r' || c = '\x0b' || c = '\x0c' || c = '\u00A0' || c = '\uFEFF'

/-- Model of `s.trim()`. -/
def jsTrim (s : String) : String :=
  String.mk (((s.data.dropWhile isJsWs).reverse.dropWhile isJsWs).reverse)

/-- The id of a stored entry when it is a string, `none` otherwise.  The
strict comparison `l.id === someString` succeeds exactly when the entry id
is that same string. -/
def idOfStr (l : Json) : Option String :=
  match jget l "id" with
  | some (.str s) => some s
  | _ => none


/-!
Model of `JSON.parse`.  The parser is a recursive-descent parser over the
character list, with a fuel argument so that every definition is
structurally recursive (and therefore evaluates inside the kernel).
Numbers are modeled as optionally signed decimal integers.
-/

/-- JSON whitespace characters. -/
def isWsChar (c : Char) : Bool :=
  c = ' ' || c = '\n' || c = '\t' || c = '\r'

/-- Skip JSON whitespace. -/
def skipWs (s : List Char) : List Char :=
  s.dropWhile isWsChar

/-- Value of a hexadecimal digit. -/
def hexVal (c : Char) : Option Nat :=
  if '0' ≤ c && c ≤ '9' then some (c.toNat - 48)
  else if 'a' ≤ c && c ≤ 'f' then some (c.toNat - 87)
  else if 'A' ≤ c && c ≤ 'F' then some (c.toNat - 55)
  else none

/-- Decimal digit test. -/
def isDigitCh (c : Char) : Bool :=
  '0' ≤ c && c ≤ '9'

/-- Numeric value of a list of decimal digits. -/
def digitsVal (ds : List Char) : Nat :=
  ds.foldl (fun a c => a * 10 + (c.toNat - 48)) 0

/-- Read a nonempty run of decimal digits. -/
def readNat (s : List Char) : Option (Nat × List Char) :=
  if (s.takeWhile isDigitCh).isEmpty then none
  else some (digitsVal (s.takeWhile isDigitCh), s.dropWhile isDigitCh)

/-- Prepend a character to the string under construction. -/
def consR (c : Char) (o : Option (List Char × List Char)) :
    Option (List Char × List Char) :=
  o.map (fun p => (c :: p.1, p.2))

/-- Parse the body of a JSON string, after the opening quote, returning the
decoded characters and the input after the closing quote. -/
def parseStringBody : List Char → Option (List Char × List Char)
  | [] => none
  | c :: r =>
    if c = '"' then some ([], r)
    else if c = '\\' then
      match r with
      | [] => none
      | e :: r2 =>
        if e = '"' then consR '"' (parseStringBody r2)
        else if e = '\\' then consR '\\' (parseStringBody r2)
        else if e = '/' then consR '/' (parseStringBody r2)
        else if e = 'n' then consR '\n' (parseStringBody r2)
        else if e = 't' then consR '\t' (parseStringBody r2)
        else if e = 'r' then consR '\r' (parseStringBody r2)
        else if e = 'b' then consR '\x08' (parseStringBody r2)
        else if e = 'f' then consR '\x0c' (parseStringBody r2)
        else if e = 'u' then
          match r2 with
          | h1 :: h2 :: h3 :: h4 :: r3 =>
            match hexVal h1, hexVal h2, hexVal h3, hexVal h4 with
            | some a, some b, some c2, some d =>
                consR (Char.ofNat (((a * 16 + b) * 16 + c2) * 16 + d)) (parseStringBody r3)
            | _, _, _, _ => none
          | _ => none
        else none
    else consR c (parseStringBody r)

/-- Parse the comma-separated items of a nonempty array, given a parser
`pv` for one value.  The input starts at the first item (whitespace already
skipped); the items end with a closing bracket. -/
def parseItemsWith (pv : List Char → Option (Json × List Char)) :
    Nat → List Char → Option (List Json × List Char)
  | 0, _ => none
  | fuel + 1, s =>
    match pv s with
    | none => none
    | some (v, r) =>
      match skipWs r with
      | ']' :: r2 => some ([v], r2)
      | ',' :: r2 =>
        match parseItemsWith pv fuel (skipWs r2) with
        | some (vs, r3) => some (v :: vs, r3)
        | none => none
      | _ => none

/-- Parse the comma-separated fields of a nonempty object, given a parser
`pv` for one value. -/
def parseFieldsWith (pv : List Char → Option (Json × List Char)) :
    Nat → List Char → Option (List (String × Json) × List Char)
  | 0, _ => none
  | fuel + 1, s =>
    match s with
    | '"' :: r =>
      match parseStringBody r with
      | none => none
      | some (kcs, r1) =>
        match skipWs r1 with
        | ':' :: r2 =>
          match pv (skipWs r2) with
          | none => none
          | some (v, r3) =>
            match skipWs r3 with
            | '}' :: r4 => some ([(String.mk kcs, v)], r4)
            | ',' :: r4 =>
              match parseFieldsWith pv fuel (skipWs r4) with
              | some (fs, r5) => some ((String.mk kcs, v) :: fs, r5)
              | none => none
            | _ => none
        | _ => none
    | _ => none

/-- Result of a string literal once the opening quote was consumed. -/
def parseAfterQuote (r : List Char) : Option (Json × List Char) :=
  match parseStringBody r with
  | some (cs, r1) => some (.str (String.mk cs), r1)
  | none => none

/-- Remainder of the `null` keyword. -/
def parseNullKw : List Char → Option (Json × List Char)
  | 'u' :: 'l' :: 'l' :: r2 => some (.null, r2)
  | _ => none

/-- Remainder of the `true` keyword. -/
def parseTrueKw : List Char → Option (Json × List Char)
  | 'r' :: 'u' :: 'e' :: r2 => some (.bool true, r2)
  | _ => none

/-- Remainder of the `false` keyword. -/
def parseFalseKw : List Char → Option (Json × List Char)
  | 'a' :: 'l' :: 's' :: 'e' :: r2 => some (.bool false, r2)
  | _ => none

/-- A negative number once the minus sign was consumed. -/
def parseNeg (r : List Char) : Option (Json × List Char) :=
  match readNat r with
  | some (n, r1) => some (.num (-(n : Int)), r1)
  | none => none

/-- A nonnegative number starting at the head. -/
def parseNumHead (s : List Char) : Option (Json × List Char) :=
  match readNat s with
  | some (n, r1) => some (.num ((n : Int)), r1)
  | none => none

/-- An array once the opening bracket was consumed, given a parser for one
value. -/
def parseArrBody (pv : List Char → Option (Json × List Char)) (fuel : Nat)
    (r : List Char) : Option (Json × List Char) :=
  let r1 := skipWs r
  if r1.head? = some ']' then some (.arr [], r1.tail)
  else
    match parseItemsWith pv fuel r1 with
    | some (vs, r2) => some (.arr vs, r2)
    | none => none

/-- An object once the opening brace was consumed, given a parser for one
value. -/
def parseObjBody (pv : List Char → Option (Json × List Char)) (fuel : Nat)
    (r : List Char) : Option (Json × List Char) :=
  let r1 := skipWs r
  if r1.head? = some '\x7d' then some (.obj [], r1.tail)
  else
    match parseFieldsWith pv fuel r1 with
    | some (fs, r2) => some (.obj fs, r2)
    | none => none

/-- Parse one JSON value at the head of the input (whitespace already
skipped). -/
def parseVal : Nat → List Char → Option (Json × List Char)
  | 0, _ => none
  | fuel + 1, s =>
    match s with
    | [] => none
    | c :: r =>
      if c = '"' then parseAfterQuote r
      else if c = '[' then parseArrBody (fun t => parseVal fuel t) fuel r
      else if c = '\x7b' then parseObjBody (fun t => parseVal fuel t) fuel r
      else if c = '-' then parseNeg r
      else if c = 'n' then parseNullKw r
      else if c = 't' then parseTrueKw r
      else if c = 'f' then parseFalseKw r
      else parseNumHead (c :: r)

/-- Model of `JSON.parse` : `none` models a thrown `SyntaxError`. -/
def jsonParse (s : String) : Option Json :=
  match parseVal (s.length + 1) (skipWs s.data) with
  | some (j, r) => if skipWs r = [] then some j else none
  | none => none


/-!
Model of `JSON.stringify` : compact form for the persistence effect
(`JSON.stringify(x)`) and pretty form with two-space indentation for the
export file (`JSON.stringify(x, null, 2)`).
-/

/-- Decimal digit character for a value below ten. -/
def dchar : Nat → Char
  | 0 => '0' | 1 => '1' | 2 => '2' | 3 => '3' | 4 => '4'
  | 5 => '5' | 6 => '6' | 7 => '7' | 8 => '8' | _ => '9'

/-- Lowercase hexadecimal digit character for a value below sixteen. -/
def hchar : Nat → Char
  | 0 => '0' | 1 => '1' | 2 => '2' | 3 => '3' | 4 => '4'
  | 5 => '5' | 6 => '6' | 7 => '7' | 8 => '8' | 9 => '9'
  | 10 => 'a' | 11 => 'b' | 12 => 'c' | 13 => 'd' | 14 => 'e' | _ => 'f'

/-- Decimal digits of a natural number, accumulator form with fuel (the
fuel `n + 1` always suffices for `n`). -/
def natToCharsAux : Nat → Nat → List Char → List Char
  | 0, _, acc => acc
  | fuel + 1, n, acc =>
    if n < 10 then dchar n :: acc
    else natToCharsAux fuel (n / 10) (dchar (n % 10) :: acc)

/-- Decimal digits of a natural number. -/
def natToChars (n : Nat) : List Char :=
  natToCharsAux (n + 1) n []

/-- Decimal rendering of an integer, as `JSON.stringify` prints it. -/
def intToChars (n : Int) : List Char :=
  if n < 0 then '-' :: natToChars n.natAbs else natToChars n.natAbs

/-- Escape of one character inside a JSON string literal, as
`JSON.stringify` produces it. -/
def escapeChar (c : Char) : List Char :=
  if c = '"' then ['\\', '"']
  else if c = '\\' then ['\\', '\\']
  else if c = '\n' then ['\\', 'n']
  else if c = '\r' then ['\\', 'r']
  else if c = '\t' then ['\\', 't']
  else if c = '\x08' then ['\\', 'b']
  else if c = '\x0c' then ['\\', 'f']
  else if c.toNat < 32 then
    ['\\', 'u', '0', '0', hchar (c.toNat / 16), hchar (c.toNat % 16)]
  else [c]

/-- Escape of every character of a string body. -/
def escapeList (cs : List Char) : List Char :=
  (cs.map escapeChar).flatten

/-- Rendering of a whole string literal, quotes included. -/
def renderStr (s : String) : List Char :=
  '"' :: escapeList s.data ++ ['"']

/-- Line separator at an indentation depth: a newline plus `ind` spaces in
pretty mode, nothing in compact mode. -/
def wsep (p : Bool) (ind : Nat) : List Char :=
  if p then '\n' :: List.replicate ind ' ' else []

/-- Characters of the `null` keyword. -/
def litNull : List Char := ['n', 'u', 'l', 'l']

/-- Characters of the `true` keyword. -/
def litTrue : List Char := ['t', 'r', 'u', 'e']

/-- Characters of the `false` keyword. -/
def litFalse : List Char := ['f', 'a', 'l', 's', 'e']

mutual

/-- Rendering of a value (`p` selects pretty mode, `d` is the current
indentation). -/
def renderV (p : Bool) (d : Nat) : Json → List Char
  | .null => litNull
  | .bool true => litTrue
  | .bool false => litFalse
  | .num n => intToChars n
  | .str s => renderStr s
  | .arr [] => ['[', ']']
  | .arr (x :: xs) =>
      '[' :: (wsep p (d + 2) ++ renderItems p (d + 2) x xs ++ wsep p d ++ [']'])
  | .obj [] => ['\x7b', '\x7d']
  | .obj (f :: fs) =>
      '\x7b' :: (wsep p (d + 2) ++ renderFields p (d + 2) f fs ++ wsep p d ++ ['\x7d'])
termination_by j => sizeOf j

/-- Rendering of the items of a nonempty array, comma separated. -/
def renderItems (p : Bool) (d : Nat) : Json → List Json → List Char
  | x, [] => renderV p d x
  | x, y :: ys => renderV p d x ++ ',' :: (wsep p d ++ renderItems p d y ys)
termination_by x xs => 1 + sizeOf x + sizeOf xs

/-- Rendering of the fields of a nonempty object, comma separated. -/
def renderFields (p : Bool) (d : Nat) : (String × Json) → List (String × Json) → List Char
  | (k, v), [] => renderKV p d k v
  | (k, v), g :: gs => renderKV p d k v ++ ',' :: (wsep p d ++ renderFields p d g gs)
termination_by f fs => 1 + sizeOf f + sizeOf fs

/-- Rendering of one `key: value` field. -/
def renderKV (p : Bool) (d : Nat) (k : String) (v : Json) : List Char :=
  renderStr k ++ ':' :: ((if p then [' '] else []) ++ renderV p d v)
termination_by 1 + sizeOf v

end

/-- Model of `JSON.stringify(x)`. -/
def stringifyCompact (j : Json) : String :=
  String.mk (renderV false 0 j)

/-- Model of `JSON.stringify(x, null, 2)`. -/
def stringifyPretty (j : Json) : String :=
  String.mk (renderV true 0 j)

/-!
Application model (src/src/App.jsx).  Handlers are pure functions on an
explicit model of the component state plus the `localStorage` slot.  The
asynchronous geocode lookup is modeled by passing the outcome of the
network request as data.
-/

/-- Outcome of the `fetch` to the reverse-geocoding endpoint: either a
network failure (the promise rejected) or a response body. -/
inductive FetchOutcome where
  | networkError : FetchOutcome
  | response (body : String) : FetchOutcome

/-- Access `data?.address?.field`. -/
def cget (data : Json) (field : String) : Option Json :=
  (jget data "address").bind (fun a => jget a field)

/-- The city chain of `enrichWithReverseGeocode`:
`data?.address?.city || data?.address?.town || data?.address?.village || data?.address?.county`. -/
def cityFrom (data : Json) : Option Json :=
  jsOr2 (jsOr2 (jsOr2 (cget data "city") (cget data "town")) (cget data "village"))
    (cget data "county")

/-- Fields of the enrichment record, dropping the `undefined` ones (as
property reads and `JSON.stringify` both do). -/
def metaFields (l : List (String × Option Json)) : List (String × Json) :=
  l.filterMap (fun kv => kv.2.map (fun v => (kv.1, v)))

/-- Model of `enrichWithReverseGeocode` : on a network failure or a body
that is not JSON the catch clause returns the empty record, otherwise the
display name, the city chain and the country are extracted. -/
def enrichWithReverseGeocode : FetchOutcome → Json
  | .networkError => .obj []
  | .response body =>
    match jsonParse body with
    | none => .obj []
    | some data =>
      .obj (metaFields
        [("displayName", jget data "display_name"),
         ("city", cityFrom data),
         ("country", cget data "country")])

/-- Transient draft form state. -/
structure Draft where
  lat : Int
  lng : Int
  title : String
  notes : String
  id : Option String

/-- The new entry built by `addDraftToLocations` : the title is
`draft.title?.trim() || meta.city || "Untitled place"`. -/
def mkNewLoc (newId : String) (now : Int) (d : Draft) (meta : Json) : Json :=
  .obj [("id", .str newId), ("lat", .num d.lat), ("lng", .num d.lng),
        ("title", jsOrJ (jsOr2 (some (.str (jsTrim d.title))) (jget meta "city"))
                    (.str "Untitled place")),
        ("notes", .str (jsTrim d.notes)),
        ("createdAt", .num now),
        ("meta", meta)]

/-- Model of `addDraftToLocations` : prepend the new entry.  The fresh id
from `crypto.randomUUID()` and the timestamp are passed as data. -/
def addDraftToLocations (newId : String) (now : Int) (d : Draft) (meta : Json)
    (locs : List Json) : List Json :=
  mkNewLoc newId now d meta :: locs

/-- Model of `deleteLocation` : keep the entries whose id differs. -/
def deleteLocation (id : String) (locs : List Json) : List Json :=
  locs.filter (fun l => idOfStr l != some id)

/-- The spread update of `saveEdit` :
`\x7b ...l, lat, lng, title, notes, meta \x7d`. -/
def updateFromDraft (d : Draft) (meta : Json) (l : Json) : Json :=
  jsonSet (jsonSet (jsonSet (jsonSet (jsonSet l "lat" (.num d.lat)) "lng" (.num d.lng))
    "title" (.str d.title)) "notes" (.str d.notes)) "meta" meta

/-- Model of `saveEdit` : a falsy draft id (absent or the empty string) is
a no-op, otherwise the matching entries are overwritten in place. -/
def saveEdit (d : Draft) (meta : Json) (locs : List Json) : List Json :=
  match d.id with
  | none => locs
  | some did =>
    if did = "" then locs
    else locs.map (fun l => if idOfStr l = some did then updateFromDraft d meta l else l)

/-- Component state plus the persistent storage slot. -/
structure AppModel where
  locations : List Json
  isCollecting : Json
  showList : Json
  draft : Option Draft
  storage : Option String

/-- The document written by the persist effect. -/
def stateDoc (locs : List Json) (ic sl : Json) : Json :=
  .obj [("locations", .arr locs), ("isCollecting", ic), ("showList", sl)]

/-- Model of the persist `useEffect` : serialize the three state pieces
compactly and overwrite the storage slot. -/
def persistEffect (m : AppModel) : AppModel :=
  { m with storage := some (stringifyCompact (stateDoc m.locations m.isCollecting m.showList)) }

/-- Model of the `handleReset` handler body alone : when confirmed, clear
the state and remove the storage key; otherwise do nothing. -/
def handleReset (confirmed : Bool) (m : AppModel) : AppModel :=
  if confirmed then
    { locations := [], isCollecting := .bool true, showList := .bool true,
      draft := none, storage := none }
  else m

/-- A confirmed reset followed by the persist effect that the state change
triggers (the handler always installs a fresh array, so the effect
dependencies always change and the effect always runs). -/
def resetCompleted (confirmed : Bool) (m : AppModel) : AppModel :=
  if confirmed then persistEffect (handleReset true m) else m

/-- The three state pieces produced by the load `useEffect`. -/
structure LoadResult where
  locations : List Json
  isCollecting : Json
  showList : Json

/-- Model of the load `useEffect` : a missing or unparsable document, or
one whose `locations` is not an array, leaves the initial defaults in
place; otherwise the three pieces are taken from the document, the flags
defaulting to `false` via `??`. -/
def loadState (raw : Option String) : LoadResult :=
  match raw with
  | none => ⟨[], .bool true, .bool true⟩
  | some s =>
    match jsonParse s with
    | none => ⟨[], .bool true, .bool true⟩
    | some parsed =>
      match jget parsed "locations" with
      | some (.arr ls) =>
        ⟨ls, nullishD (jget parsed "isCollecting") (.bool false),
             nullishD (jget parsed "showList") (.bool false)⟩
      | _ => ⟨[], .bool true, .bool true⟩

/-- Model of `onUploadFile` once the file content is read: the second
component is the alert message shown to the user, if any.  A successful
file load mutates the state, so the persist effect runs afterwards. -/
def onUploadFile (content : String) (m : AppModel) : AppModel × Option String :=
  match jsonParse content with
  | none => (m, some "Could not parse JSON.")
  | some parsed =>
    match parsed with
    | .arr ls =>
      (persistEffect { m with locations := ls, isCollecting := .bool false,
                              showList := .bool false }, none)
    | _ => (m, some "Invalid file format.")

/-- Model of `downloadJSON` : the content of the exported file. -/
def downloadJSON (locs : List Json) : String :=
  stringifyPretty (.arr locs)

/-- One user-level mutation of the location list, with the data the
asynchronous parts deliver (fresh id, timestamp, enrichment). -/
inductive Op where
  | add (newId : String) (now : Int) (d : Draft) (meta : Json) : Op
  | save (d : Draft) (meta : Json) : Op
  | remove (id : String) : Op

/-- Application of one operation. -/
def applyOp : Op → List Json → List Json
  | .add i n d m, locs => addDraftToLocations i n d m locs
  | .save d m, locs => saveEdit d m locs
  | .remove i, locs => deleteLocation i locs

/-- Application of a sequence of operations, oldest first. -/
def applyOps (ops : List Op) (locs : List Json) : List Json :=
  ops.foldl (fun l o => applyOp o l) locs

/-- The ids of the stored entries (string ids; a non-string or missing id
maps to `none`). -/
def idsOf (locs : List Json) : List (Option String) :=
  locs.map idOfStr

/-- Trace condition: every `add` in the sequence uses an id that is not
already present at the moment it runs (`crypto.randomUUID()` freshness). -/
def freshTrace : List Op → List Json → Bool
  | [], _ => true
  | op :: ops, locs =>
    (match op with
     | .add i _ _ _ => !(idsOf locs).contains (some i)
     | _ => true) && freshTrace ops (applyOp op locs)

/-!
Basic lemmas about object updates and field access.
-/

theorem getAssoc_setAssoc_self (fs : List (String × Json)) (k : String) (v : Json) :
    getAssoc (setAssoc fs k v) k = some v := by
  induction fs with
  | nil => simp [setAssoc, getAssoc]
  | cons f rest ih =>
    obtain ⟨k1, w⟩ := f
    by_cases h : k1 = k
    · simp [setAssoc, h, getAssoc]
    · simp [setAssoc, h, getAssoc, ih]

theorem getAssoc_setAssoc_ne (fs : List (String × Json)) (k key : String) (v : Json)
    (h : k ≠ key) : getAssoc (setAssoc fs k v) key = getAssoc fs key := by
  induction fs with
  | nil => simp [setAssoc, getAssoc, h]
  | cons f rest ih =>
    obtain ⟨k1, w⟩ := f
    by_cases h1 : k1 = k
    · subst h1
      simp [setAssoc, getAssoc, h]
    · simp [setAssoc, h1, getAssoc, ih]

theorem jget_jsonSet_self (l : Json) (k : String) (v : Json) :
    jget (jsonSet l k v) k = some v := by
  cases l <;> simp [jsonSet, jget, getAssoc_setAssoc_self]

theorem jget_jsonSet_ne (l : Json) (k key : String) (v : Json) (h : k ≠ key) :
    jget (jsonSet l k v) key = jget l key := by
  cases l <;> simp [jsonSet, jget, getAssoc_setAssoc_ne _ _ _ _ h, getAssoc, h]

/-- C4 section: the committed title of a new place. -/
theorem jget_mkNewLoc_title (newId : String) (now : Int) (d : Draft) (meta : Json) :
    jget (mkNewLoc newId now d meta) "title"
      = some (jsOrJ (jsOr2 (some (.str (jsTrim d.title))) (jget meta "city"))
          (.str "Untitled place")) := by
  simp [mkNewLoc, jget, getAssoc]

/-- C4: for a draft committed via add, a blank title with a looked-up
nonempty city gives that city as title; a blank title with no city gives
"Untitled place"; a non-blank title is kept trimmed. -/
theorem addDraft_title_defaults (newId : String) (now lat lng : Int)
    (title notes : String) (meta : Json) (locs : List Json) :
    ((jsTrim title = "" → ∀ c : String, jget meta "city" = some (.str c) → c ≠ "" →
      ((addDraftToLocations newId now ⟨lat, lng, title, notes, none⟩ meta locs).head?.bind
        (fun l => jget l "title")) = some (.str c))
    ∧ (jsTrim title = "" → jget meta "city" = none →
      ((addDraftToLocations newId now ⟨lat, lng, title, notes, none⟩ meta locs).head?.bind
        (fun l => jget l "title")) = some (.str "Untitled place"))
    ∧ (jsTrim title ≠ "" →
      ((addDraftToLocations newId now ⟨lat, lng, title, notes, none⟩ meta locs).head?.bind
        (fun l => jget l "title")) = some (.str (jsTrim title)))) := by
  refine ⟨?_, ?_, ?_⟩
  · intro hb c hc hne
    simp [addDraftToLocations, jget_mkNewLoc_title, hb, hc, jsOrJ, jsOr2, truthyO, truthy, hne]
  · intro hb hc
    simp [addDraftToLocations, jget_mkNewLoc_title, hb, hc, jsOrJ, jsOr2, truthyO, truthy]
  · intro hb
    simp [addDraftToLocations, jget_mkNewLoc_title, jsOrJ, jsOr2, truthyO, truthy, hb]

/-- C4 witness: blank title plus city meta at a concrete input. -/
theorem addDraft_title_defaults_witness :
    ((addDraftToLocations "u1" 0 ⟨40, -74, " ", "", none⟩
        (Json.obj [("city", Json.str "Jersey City")]) []).head?.bind
      (fun l => jget l "title")) = some (.str "Jersey City") :=
  (addDraft_title_defaults "u1" 0 40 (-74) " " "" (Json.obj [("city", Json.str "Jersey City")])
      []).1 (by decide) "Jersey City" rfl (by decide)

/-- C6: a missing or unparsable persisted document loads the defaults. -/
theorem load_defaults_on_bad_document (raw : Option String)
    (h : raw = none ∨ ∃ s, raw = some s ∧ jsonParse s = none) :
    loadState raw = ⟨[], Json.bool true, Json.bool true⟩ := by
  rcases h with h | ⟨s, rfl, hp⟩
  · subst h; rfl
  · simp [loadState, hp]

/-- C6 witness: a malformed persisted document at a concrete input. -/
theorem load_defaults_on_bad_document_witness :
    loadState (some "not json") = ⟨[], Json.bool true, Json.bool true⟩ :=
  load_defaults_on_bad_document (some "not json") (Or.inr ⟨"not json", rfl, rfl⟩)

/-- C10: a parsed document with an array `locations` but missing flags
loads those flags as false, not as the absent-document default true. -/
theorem load_missing_flags_false (s : String) (doc : Json) (ls : List Json)
    (hp : jsonParse s = some doc) (hl : jget doc "locations" = some (Json.arr ls)) :
    (loadState (some s)).locations = ls
    ∧ (jget doc "isCollecting" = none → (loadState (some s)).isCollecting = Json.bool false)
    ∧ (jget doc "showList" = none → (loadState (some s)).showList = Json.bool false) := by
  refine ⟨?_, ?_, ?_⟩
  · simp [loadState, hp, hl]
  · intro hic; simp [loadState, hp, hl, hic, nullishD]
  · intro hsl; simp [loadState, hp, hl, hsl, nullishD]

/-- C10 witness: a persisted document holding only `locations`. -/
theorem load_missing_flags_false_witness :
    (loadState (some "\x7b\"locations\": []\x7d")).isCollecting = Json.bool false
    ∧ (loadState (some "\x7b\"locations\": []\x7d")).showList = Json.bool false :=
  ⟨(load_missing_flags_false "\x7b\"locations\": []\x7d"
      (Json.obj [("locations", Json.arr [])]) [] rfl rfl).2.1 rfl,
   (load_missing_flags_false "\x7b\"locations\": []\x7d"
      (Json.obj [("locations", Json.arr [])]) [] rfl rfl).2.2 rfl⟩

/-- C7: the geocode lookup resolves to the empty enrichment record on a
network failure or a body that does not parse as JSON. -/
theorem enrich_empty_on_failure (o : FetchOutcome)
    (h : o = .networkError ∨ ∃ b, o = .response b ∧ jsonParse b = none) :
    enrichWithReverseGeocode o = Json.obj [] := by
  rcases h with h | ⟨b, rfl, hp⟩
  · subst h; rfl
  · simp [enrichWithReverseGeocode, hp]

/-- C7 witness: the network-failure outcome. -/
theorem enrich_empty_on_failure_witness :
    enrichWithReverseGeocode .networkError = Json.obj [] :=
  enrich_empty_on_failure .networkError (Or.inl rfl)

/-!
C5.  The reset handler itself removes the storage key, but mutating the
three persisted pieces triggers the persist effect, which immediately
re-writes the serialized default state.  So after a confirmed reset
completes, the storage slot holds the default document, not nothing.
-/

/-- Concrete state used by the C5 counterexample. -/
def resetDemoModel : AppModel :=
  ⟨[Json.obj [("id", Json.str "a"), ("lat", Json.num 1), ("lng", Json.num 2)]],
   Json.bool false, Json.bool false, none, some "prev"⟩

/-- C5 counterexample: after a confirmed reset completes (handler plus the
persist effect it triggers), a persisted document remains. -/
theorem reset_leaves_a_persisted_document :
    (resetCompleted true resetDemoModel).storage ≠ none := by
  simp [resetCompleted, handleReset, persistEffect]

/-- C5 amended: the handler alone clears the state, requires confirmation,
and removes the key; the triggered persist effect then stores the
serialized default document. -/
theorem reset_spec (m : AppModel) :
    handleReset true m
      = ⟨[], Json.bool true, Json.bool true, none, none⟩
    ∧ handleReset false m = m
    ∧ resetCompleted false m = m
    ∧ resetCompleted true m
      = ⟨[], Json.bool true, Json.bool true, none,
          some (stringifyCompact (stateDoc [] (Json.bool true) (Json.bool true)))⟩ := by
  refine ⟨rfl, rfl, rfl, ?_⟩
  simp [resetCompleted, handleReset, persistEffect]

/-!
C8.  The city chain uses JavaScript truthiness, so a present but falsy
field (for instance an empty-string city) is skipped; and when none of the
first three fields is truthy the chain yields the county value whatever it
is.  The claim as stated says the first *present* field wins.
-/

/-- Modelled from the claim wording of C8: the first present one of
city, town, village, county wins. -/
def firstPresentCity (data : Json) : Option Json :=
  match cget data "city" with
  | some v => some v
  | none =>
    match cget data "town" with
    | some v => some v
    | none =>
      match cget data "village" with
      | some v => some v
      | none => cget data "county"

/-- Concrete response for the C8 counterexample: a present but empty
`city` next to a nonempty `town`. -/
def emptyCityResponse : Json :=
  Json.obj [("address", Json.obj [("city", Json.str ""), ("town", Json.str "Springfield")])]

/-- C8 counterexample: the code skips the present empty city and yields
the town, so the first present field does not win. -/
theorem city_not_first_present :
    cityFrom emptyCityResponse = some (Json.str "Springfield")
    ∧ firstPresentCity emptyCityResponse = some (Json.str "")
    ∧ cityFrom emptyCityResponse ≠ firstPresentCity emptyCityResponse := by
  refine ⟨rfl, rfl, ?_⟩
  intro h
  have h2 : some (Json.str "Springfield") = some (Json.str "") := h
  injection h2 with h3
  injection h3 with h4
  exact absurd h4 (by decide)

/-- C8 amended: the chain yields the first truthy field value among city,
town, village, county in that order, and when none is truthy it yields the
county value (possibly absent or falsy). -/
theorem city_priority_truthy (data : Json) :
    cityFrom data =
      match [cget data "city", cget data "town", cget data "village",
             cget data "county"].find? truthyO with
      | some v => v
      | none => cget data "county" := by
  simp only [cityFrom, jsOr2, List.find?]
  cases hc : truthyO (cget data "city") <;>
    cases ht : truthyO (cget data "town") <;>
      cases hv : truthyO (cget data "village") <;>
        cases hco : truthyO (cget data "county") <;>
          simp [hc, ht, hv, hco]

/-!
C1.  Under fresh ids for every add, no operation sequence from the empty
list produces two entries with the same id.  Two entries share an id
exactly when the `idOfStr` projections collide, so distinctness is
`List.Nodup` of `idsOf`.
-/

theorem idOfStr_jsonSet (l : Json) (k : String) (v : Json) (h : k ≠ "id") :
    idOfStr (jsonSet l k v) = idOfStr l := by
  simp [idOfStr, jget_jsonSet_ne l k "id" v h]

theorem idOfStr_updateFromDraft (d : Draft) (meta : Json) (l : Json) :
    idOfStr (updateFromDraft d meta l) = idOfStr l := by
  simp [updateFromDraft, idOfStr_jsonSet _ _ _ (by decide : ("meta" : String) ≠ "id"),
    idOfStr_jsonSet _ _ _ (by decide : ("notes" : String) ≠ "id"),
    idOfStr_jsonSet _ _ _ (by decide : ("title" : String) ≠ "id"),
    idOfStr_jsonSet _ _ _ (by decide : ("lng" : String) ≠ "id"),
    idOfStr_jsonSet _ _ _ (by decide : ("lat" : String) ≠ "id")]

theorem idOfStr_mkNewLoc (newId : String) (now : Int) (d : Draft) (meta : Json) :
    idOfStr (mkNewLoc newId now d meta) = some newId := by
  simp [idOfStr, mkNewLoc, jget, getAssoc]

theorem idsOf_saveEdit (d : Draft) (meta : Json) (locs : List Json) :
    idsOf (saveEdit d meta locs) = idsOf locs := by
  cases hd : d.id with
  | none => simp [saveEdit, hd]
  | some did =>
    by_cases h0 : did = ""
    · simp [saveEdit, hd, h0]
    · have hs : saveEdit d meta locs
          = locs.map (fun l => if idOfStr l = some did then updateFromDraft d meta l else l) := by
        simp [saveEdit, hd, h0]
      rw [hs, idsOf, idsOf, List.map_map]
      refine List.map_congr_left (fun l _ => ?_)
      by_cases hm : idOfStr l = some did
      · simp [Function.comp, hm, idOfStr_updateFromDraft]
      · simp [Function.comp, hm]

theorem idsOf_deleteLocation_sublist (i : String) (locs : List Json) :
    (idsOf (deleteLocation i locs)).Sublist (idsOf locs) :=
  (List.filter_sublist locs).map idOfStr

theorem nodup_ids_invariant (ops : List Op) (locs : List Json)
    (hn : (idsOf locs).Nodup) (hf : freshTrace ops locs = true) :
    (idsOf (applyOps ops locs)).Nodup := by
  induction ops generalizing locs with
  | nil => simpa [applyOps] using hn
  | cons op ops ih =>
    have hstep : applyOps (op :: ops) locs = applyOps ops (applyOp op locs) := rfl
    rw [hstep]
    simp only [freshTrace, Bool.and_eq_true] at hf
    refine ih (applyOp op locs) ?_ hf.2
    cases op with
    | add i n d m =>
      have hfresh : ¬ some i ∈ idsOf locs := by
        have := hf.1
        simpa using this
      simpa [applyOp, addDraftToLocations, idsOf, idOfStr_mkNewLoc] using
        And.intro hfresh hn
    | save d m =>
      simpa [applyOp, idsOf_saveEdit] using hn
    | remove i =>
      exact (idsOf_deleteLocation_sublist i locs).nodup hn

/-- C1: from the empty list, any sequence of add, saveEdit and
deleteLocation operations whose adds use fresh ids never produces two
entries with the same id. -/
theorem trace_ids_nodup (ops : List Op) (hf : freshTrace ops [] = true) :
    (idsOf (applyOps ops [])).Nodup :=
  nodup_ids_invariant ops [] (by simp [idsOf]) hf

/-- C1 witness: a concrete trace with two adds, an edit and a removal. -/
theorem trace_ids_nodup_witness :
    freshTrace
      [Op.add "a" 0 ⟨1, 2, "", "", none⟩ (Json.obj []),
       Op.add "b" 1 ⟨3, 4, "t", "", none⟩ (Json.obj []),
       Op.save ⟨5, 6, "u", "v", some "a"⟩ (Json.obj []),
       Op.remove "b"] [] = true
    ∧ (idsOf (applyOps
        [Op.add "a" 0 ⟨1, 2, "", "", none⟩ (Json.obj []),
         Op.add "b" 1 ⟨3, 4, "t", "", none⟩ (Json.obj []),
         Op.save ⟨5, 6, "u", "v", some "a"⟩ (Json.obj []),
         Op.remove "b"] [])).Nodup :=
  ⟨by decide, trace_ids_nodup _ (by decide)⟩

/-!
C9.  Committing an edit overwrites only the matching entry, and only its
mutable fields; id and createdAt are untouched, and every other entry is
unchanged in its original position.  Place ids are generated by
`crypto.randomUUID()`, so a genuine Place id is a nonempty string; the
nonemptiness hypothesis records that (an empty-string id would be falsy
and `saveEdit` would be a no-op).
-/

theorem jget_updateFromDraft_ne (d : Draft) (meta : Json) (l : Json) (key : String)
    (h1 : key ≠ "lat") (h2 : key ≠ "lng") (h3 : key ≠ "title") (h4 : key ≠ "notes")
    (h5 : key ≠ "meta") :
    jget (updateFromDraft d meta l) key = jget l key := by
  simp [updateFromDraft,
    jget_jsonSet_ne _ _ _ _ (fun h => h5 h.symm),
    jget_jsonSet_ne _ _ _ _ (fun h => h4 h.symm),
    jget_jsonSet_ne _ _ _ _ (fun h => h3 h.symm),
    jget_jsonSet_ne _ _ _ _ (fun h => h2 h.symm),
    jget_jsonSet_ne _ _ _ _ (fun h => h1 h.symm)]

theorem jget_updateFromDraft_fields (d : Draft) (meta : Json) (l : Json) :
    jget (updateFromDraft d meta l) "lat" = some (Json.num d.lat)
    ∧ jget (updateFromDraft d meta l) "lng" = some (Json.num d.lng)
    ∧ jget (updateFromDraft d meta l) "title" = some (Json.str d.title)
    ∧ jget (updateFromDraft d meta l) "notes" = some (Json.str d.notes)
    ∧ jget (updateFromDraft d meta l) "meta" = some meta := by
  refine ⟨?_, ?_, ?_, ?_, ?_⟩ <;>
    simp [updateFromDraft, jget_jsonSet_self,
      jget_jsonSet_ne _ _ _ _ (by decide : ("meta" : String) ≠ "notes"),
      jget_jsonSet_ne _ _ _ _ (by decide : ("meta" : String) ≠ "title"),
      jget_jsonSet_ne _ _ _ _ (by decide : ("meta" : String) ≠ "lng"),
      jget_jsonSet_ne _ _ _ _ (by decide : ("meta" : String) ≠ "lat"),
      jget_jsonSet_ne _ _ _ _ (by decide : ("notes" : String) ≠ "title"),
      jget_jsonSet_ne _ _ _ _ (by decide : ("notes" : String) ≠ "lng"),
      jget_jsonSet_ne _ _ _ _ (by decide : ("notes" : String) ≠ "lat"),
      jget_jsonSet_ne _ _ _ _ (by decide : ("title" : String) ≠ "lng"),
      jget_jsonSet_ne _ _ _ _ (by decide : ("title" : String) ≠ "lat"),
      jget_jsonSet_ne _ _ _ _ (by decide : ("lng" : String) ≠ "lat")]

/-- C9: saveEdit with the id of an existing Place overwrites only the
matching entry, setting lat, lng, title, notes and meta from the draft
while keeping id and createdAt, and leaves every other entry unchanged in
its original position. -/
theorem saveEdit_overwrites_only_match (locs : List Json) (lat lng : Int)
    (title notes did : String) (meta : Json)
    (hdid : did ≠ "") (_hmem : some did ∈ idsOf locs) :
    (saveEdit ⟨lat, lng, title, notes, some did⟩ meta locs).length = locs.length
    ∧ ∀ (i : Nat) (l : Json), locs[i]? = some l →
      (idOfStr l ≠ some did →
        (saveEdit ⟨lat, lng, title, notes, some did⟩ meta locs)[i]? = some l)
      ∧ (idOfStr l = some did → ∃ l2,
          (saveEdit ⟨lat, lng, title, notes, some did⟩ meta locs)[i]? = some l2
          ∧ jget l2 "id" = jget l "id"
          ∧ jget l2 "createdAt" = jget l "createdAt"
          ∧ jget l2 "lat" = some (Json.num lat)
          ∧ jget l2 "lng" = some (Json.num lng)
          ∧ jget l2 "title" = some (Json.str title)
          ∧ jget l2 "notes" = some (Json.str notes)
          ∧ jget l2 "meta" = some meta) := by
  have hs : saveEdit ⟨lat, lng, title, notes, some did⟩ meta locs
      = locs.map (fun l => if idOfStr l = some did
          then updateFromDraft ⟨lat, lng, title, notes, some did⟩ meta l else l) := by
    simp [saveEdit, hdid]
  refine ⟨by rw [hs]; simp, ?_⟩
  intro i l hl
  constructor
  · intro hne
    rw [hs, List.getElem?_map, hl]
    simp [hne]
  · intro heq
    refine ⟨updateFromDraft ⟨lat, lng, title, notes, some did⟩ meta l, ?_, ?_, ?_, ?_⟩
    · rw [hs, List.getElem?_map, hl]
      simp [heq]
    · exact jget_updateFromDraft_ne _ _ _ _ (by decide) (by decide) (by decide) (by decide)
        (by decide)
    · exact jget_updateFromDraft_ne _ _ _ _ (by decide) (by decide) (by decide) (by decide)
        (by decide)
    · exact jget_updateFromDraft_fields _ _ _

/-- C9 witness: a concrete two-entry list edited at the first id. -/
theorem saveEdit_overwrites_only_match_witness :
    (saveEdit ⟨5, 6, "T", "N", some "a"⟩ (Json.obj [])
        [Json.obj [("id", Json.str "a"), ("lat", Json.num 1), ("createdAt", Json.num 7)],
         Json.obj [("id", Json.str "b")]]).length = 2
    ∧ (saveEdit ⟨5, 6, "T", "N", some "a"⟩ (Json.obj [])
        [Json.obj [("id", Json.str "a"), ("lat", Json.num 1), ("createdAt", Json.num 7)],
         Json.obj [("id", Json.str "b")]])[1]? = some (Json.obj [("id", Json.str "b")]) := by
  have h := saveEdit_overwrites_only_match
    [Json.obj [("id", Json.str "a"), ("lat", Json.num 1), ("createdAt", Json.num 7)],
     Json.obj [("id", Json.str "b")]] 5 6 "T" "N" "a" (Json.obj [])
    (by decide) (by simp [idsOf, idOfStr, jget, getAssoc])
  exact ⟨h.1, (h.2 1 (Json.obj [("id", Json.str "b")]) rfl).1 (by simp [idOfStr, jget, getAssoc])⟩

/-!
C3.  Import of a document that parses but is not an array alerts the user
and changes nothing; an array replaces `locations` wholesale and switches
both mode flags off.
-/

/-- C3: behavior of the import handler on a parsed document. -/
theorem import_array_check (content : String) (m : AppModel) :
    (∀ j, jsonParse content = some j → (∀ ls, j ≠ Json.arr ls) →
      (onUploadFile content m).1 = m
      ∧ (onUploadFile content m).2 = some "Invalid file format.")
    ∧ (∀ ls, jsonParse content = some (Json.arr ls) →
      (onUploadFile content m).1.locations = ls
      ∧ (onUploadFile content m).1.isCollecting = Json.bool false
      ∧ (onUploadFile content m).1.showList = Json.bool false
      ∧ (onUploadFile content m).2 = none) := by
  constructor
  · intro j hp hj
    cases j with
    | arr ls => exact absurd rfl (hj ls)
    | null => simp [onUploadFile, hp]
    | bool b => simp [onUploadFile, hp]
    | num n => simp [onUploadFile, hp]
    | str s => simp [onUploadFile, hp]
    | obj fs => simp [onUploadFile, hp]
  · intro ls hp
    simp [onUploadFile, hp, persistEffect]

/-- C3 witness: a non-array JSON document and an array document. -/
theorem import_array_check_witness :
    ((onUploadFile "\x7b\x7d" ⟨[Json.null], Json.bool true, Json.bool true, none, none⟩).1
        = ⟨[Json.null], Json.bool true, Json.bool true, none, none⟩
      ∧ (onUploadFile "\x7b\x7d"
          ⟨[Json.null], Json.bool true, Json.bool true, none, none⟩).2
        = some "Invalid file format.")
    ∧ ((onUploadFile "[1]" ⟨[Json.null], Json.bool true, Json.bool true, none, none⟩).1.locations
        = [Json.num 1]) := by
  constructor
  · exact (import_array_check "\x7b\x7d"
      ⟨[Json.null], Json.bool true, Json.bool true, none, none⟩).1 (Json.obj []) rfl
      (fun ls h => by injection h)
  · exact ((import_array_check "[1]"
      ⟨[Json.null], Json.bool true, Json.bool true, none, none⟩).2 [Json.num 1] rfl).1

/-!
C2 groundwork: the decimal printer and reader invert each other.
-/

theorem charOfNat_toNat (c : Char) : Char.ofNat c.toNat = c := by
  have hv : Nat.isValidChar c.toNat := c.valid
  unfold Char.ofNat
  rw [dif_pos hv]
  apply Char.eq_of_val_eq
  simp [Char.ofNatAux, Char.toNat]
  apply UInt32.eq_of_toBitVec_eq
  simp [UInt32.toBitVec]
  apply BitVec.eq_of_toNat_eq
  rfl

theorem stringMk_data (s : String) : String.mk s.data = s := rfl

/-- Specification-level decimal digits (well-founded form of the fueled
printer). -/
def natDigits (n : Nat) : List Char :=
  if n < 10 then [dchar n] else natDigits (n / 10) ++ [dchar (n % 10)]
termination_by n
decreasing_by exact Nat.div_lt_self (by omega) (by omega)

theorem natToCharsAux_eq_natDigits (fuel : Nat) :
    ∀ n acc, n < fuel → natToCharsAux fuel n acc = natDigits n ++ acc := by
  induction fuel with
  | zero => intro n acc h; omega
  | succ f ih =>
    intro n acc h
    by_cases h10 : n < 10
    · rw [natToCharsAux, if_pos h10, natDigits, if_pos h10]
      rfl
    · rw [natToCharsAux, if_neg h10, ih (n / 10) _ (by omega)]
      rw [show natDigits n = natDigits (n / 10) ++ [dchar (n % 10)] by
        rw [natDigits]; simp [h10]]
      simp

theorem natToChars_eq_natDigits (n : Nat) : natToChars n = natDigits n := by
  rw [natToChars, natToCharsAux_eq_natDigits (n + 1) n [] (by omega), List.append_nil]

theorem isDigitCh_dchar : ∀ d : Nat, d < 10 → isDigitCh (dchar d) = true := by decide

theorem dchar_val : ∀ d : Nat, d < 10 → (dchar d).toNat - 48 = d := by decide

theorem natDigits_ne_nil (n : Nat) : natDigits n ≠ [] := by
  rw [natDigits]
  by_cases h : n < 10 <;> simp [h]

theorem natDigits_all_digits (n : Nat) : ∀ c ∈ natDigits n, isDigitCh c = true := by
  induction n using Nat.strong_induction_on with
  | _ n ih =>
    rw [natDigits]
    by_cases h : n < 10
    · simp [h, isDigitCh_dchar n h]
    · simp only [h, if_false, List.mem_append, List.mem_singleton]
      rintro c (hc | rfl)
      · exact ih (n / 10) (Nat.div_lt_self (by omega) (by omega)) c hc
      · exact isDigitCh_dchar _ (Nat.mod_lt n (by omega))

theorem foldl_natDigits (n : Nat) :
    ∀ a : Nat, List.foldl (fun acc c => acc * 10 + (c.toNat - 48)) a (natDigits n)
      = a * 10 ^ (natDigits n).length + n := by
  induction n using Nat.strong_induction_on with
  | _ n ih =>
    intro a
    rw [natDigits]
    by_cases h : n < 10
    · simp [h, List.foldl, dchar_val n h]
    · rw [if_neg h, List.foldl_append, ih (n / 10) (Nat.div_lt_self (by omega) (by omega)) a]
      simp only [List.foldl, List.length_append, List.length_singleton]
      rw [dchar_val _ (Nat.mod_lt n (by omega))]
      rw [pow_succ]
      have := Nat.div_add_mod n 10
      ring_nf
      omega

theorem digitsVal_natDigits (n : Nat) : digitsVal (natDigits n) = n := by
  rw [digitsVal, foldl_natDigits n 0]
  simp

/-- Head condition for a predicate: the remainder does not start with a
character satisfying it. -/
def headNot (p : Char → Bool) : List Char → Prop
  | [] => True
  | c :: _ => p c = false

theorem takeWhile_all_append (p : Char → Bool) (l rest : List Char)
    (hall : ∀ c ∈ l, p c = true) (hrest : headNot p rest) :
    (l ++ rest).takeWhile p = l ∧ (l ++ rest).dropWhile p = rest := by
  induction l with
  | nil =>
    simp only [List.nil_append]
    cases rest with
    | nil => simp
    | cons c t =>
      have : p c = false := hrest
      simp [List.takeWhile_cons, List.dropWhile_cons, this]
  | cons a l ih =>
    have ha : p a = true := hall a (by simp)
    have ih2 := ih (fun c hc => hall c (by simp [hc]))
    simp [List.takeWhile_cons, List.dropWhile_cons, ha, ih2.1, ih2.2]

theorem readNat_natDigits (n : Nat) (rest : List Char) (hrest : headNot isDigitCh rest) :
    readNat (natDigits n ++ rest) = some (n, rest) := by
  have h := takeWhile_all_append isDigitCh (natDigits n) rest (natDigits_all_digits n) hrest
  rw [readNat, h.1, h.2]
  have hne : (natDigits n).isEmpty = false := by
    cases hd : natDigits n with
    | nil => exact absurd hd (natDigits_ne_nil n)
    | cons c t => rfl
  rw [hne]
  simp [digitsVal_natDigits]

/-!
C2 groundwork: escaped strings parse back to themselves.
-/

theorem hexVal_hchar : ∀ d : Nat, d < 16 → hexVal (hchar d) = some d := by decide

theorem psb_quote (r : List Char) : parseStringBody ('"' :: r) = some ([], r) := by
  rw [parseStringBody.eq_def]
  simp

theorem psb_raw (c : Char) (r : List Char) (h1 : ¬ c = '"') (h2 : ¬ c = '\\') :
    parseStringBody (c :: r) = consR c (parseStringBody r) := by
  rw [parseStringBody.eq_def]
  simp [h1, h2]

theorem psb_esc_quote (r : List Char) :
    parseStringBody ('\\' :: '"' :: r) = consR '"' (parseStringBody r) := by
  rw [parseStringBody.eq_def]
  simp

theorem psb_esc_back (r : List Char) :
    parseStringBody ('\\' :: '\\' :: r) = consR '\\' (parseStringBody r) := by
  rw [parseStringBody.eq_def]
  simp

theorem psb_esc_n (r : List Char) :
    parseStringBody ('\\' :: 'n' :: r) = consR '\n' (parseStringBody r) := by
  rw [parseStringBody.eq_def]
  simp

theorem psb_esc_t (r : List Char) :
    parseStringBody ('\\' :: 't' :: r) = consR '\t' (parseStringBody r) := by
  rw [parseStringBody.eq_def]
  simp

theorem psb_esc_r (r : List Char) :
    parseStringBody ('\\' :: 'r' :: r) = consR '\r' (parseStringBody r) := by
  rw [parseStringBody.eq_def]
  simp

theorem psb_esc_b (r : List Char) :
    parseStringBody ('\\' :: 'b' :: r) = consR '\x08' (parseStringBody r) := by
  rw [parseStringBody.eq_def]
  simp

theorem psb_esc_f (r : List Char) :
    parseStringBody ('\\' :: 'f' :: r) = consR '\x0c' (parseStringBody r) := by
  rw [parseStringBody.eq_def]
  simp

theorem psb_esc_u (h1 h2 h3 h4 : Char) (a b c2 d : Nat) (r : List Char)
    (e1 : hexVal h1 = some a) (e2 : hexVal h2 = some b)
    (e3 : hexVal h3 = some c2) (e4 : hexVal h4 = some d) :
    parseStringBody ('\\' :: 'u' :: h1 :: h2 :: h3 :: h4 :: r)
      = consR (Char.ofNat (((a * 16 + b) * 16 + c2) * 16 + d)) (parseStringBody r) := by
  rw [parseStringBody.eq_def]
  simp [e1, e2, e3, e4]

theorem hexVal_zero : hexVal '0' = some 0 := by decide

theorem parseStringBody_escape (cs : List Char) :
    ∀ rest : List Char, parseStringBody (escapeList cs ++ '"' :: rest) = some (cs, rest) := by
  induction cs with
  | nil =>
    intro rest
    simp [escapeList, psb_quote]
  | cons c cs ih =>
    intro rest
    have hstep : escapeList (c :: cs) ++ '"' :: rest
        = escapeChar c ++ (escapeList cs ++ '"' :: rest) := by
      simp [escapeList]
    rw [hstep]
    by_cases h1 : c = '"'
    · subst h1
      simp [escapeChar, psb_esc_quote, consR, ih rest]
    · by_cases h2 : c = '\\'
      · subst h2
        simp [escapeChar, psb_esc_back, consR, ih rest]
      · by_cases h3 : c = '\n'
        · subst h3
          simp [escapeChar, psb_esc_n, consR, ih rest]
        · by_cases h4 : c = '\r'
          · subst h4
            simp [escapeChar, psb_esc_r, consR, ih rest]
          · by_cases h5 : c = '\t'
            · subst h5
              simp [escapeChar, psb_esc_t, consR, ih rest]
            · by_cases h6 : c = '\x08'
              · subst h6
                simp [escapeChar, psb_esc_b, consR, ih rest]
              · by_cases h7 : c = '\x0c'
                · subst h7
                  simp [escapeChar, psb_esc_f, consR, ih rest]
                · by_cases h8 : c.toNat < 32
                  · have hhi : c.toNat / 16 < 16 := by omega
                    have hlo : c.toNat % 16 < 16 := by omega
                    have hesc : escapeChar c
                        = ['\\', 'u', '0', '0', hchar (c.toNat / 16), hchar (c.toNat % 16)] := by
                      simp [escapeChar, h1, h2, h3, h4, h5, h6, h7, h8]
                    rw [hesc]
                    simp only [List.cons_append, List.nil_append]
                    rw [psb_esc_u '0' '0' (hchar (c.toNat / 16)) (hchar (c.toNat % 16))
                      0 0 (c.toNat / 16) (c.toNat % 16) _ hexVal_zero hexVal_zero
                      (hexVal_hchar _ hhi) (hexVal_hchar _ hlo)]
                    have hmk : ((0 * 16 + 0) * 16 + c.toNat / 16) * 16 + c.toNat % 16
                        = c.toNat := by omega
                    rw [hmk, charOfNat_toNat c, ih rest]
                    rfl
                  · have hraw : escapeChar c = [c] := by
                      simp [escapeChar, h1, h2, h3, h4, h5, h6, h7, h8]
                    rw [hraw]
                    simp only [List.cons_append, List.nil_append]
                    rw [psb_raw c _ h1 h2, ih rest]
                    rfl

/-!
C2 groundwork: whitespace skipping, the shape of rendered output, and
length bounds feeding the parser fuel.
-/

theorem skipWs_not (c : Char) (t : List Char) (h : isWsChar c = false) :
    skipWs (c :: t) = c :: t := by
  simp [skipWs, List.dropWhile_cons, h]

theorem skipWs_replicate (n : Nat) (t : List Char) :
    skipWs (List.replicate n ' ' ++ t) = skipWs t := by
  induction n with
  | zero => simp
  | succ m ih =>
    simp only [List.replicate_succ, List.cons_append]
    simp only [skipWs, List.dropWhile_cons, isWsChar]
    simpa using ih

theorem skipWs_wsep (p : Bool) (d : Nat) (t : List Char) :
    skipWs (wsep p d ++ t) = skipWs t := by
  cases p with
  | false => simp [wsep]
  | true =>
    simp only [wsep, if_pos, List.cons_append]
    rw [show skipWs ('\n' :: (List.replicate d ' ' ++ t))
        = skipWs (List.replicate d ' ' ++ t) by simp [skipWs, List.dropWhile_cons, isWsChar]]
    exact skipWs_replicate d t

theorem skipWs_pad (p : Bool) (t : List Char) :
    skipWs ((if p then [' '] else []) ++ t) = skipWs t := by
  cases p with
  | false => simp
  | true => simp [skipWs, List.dropWhile_cons, isWsChar]

/-- Properties of the first character of any rendered value: it is not
whitespace and not a closing token. -/
def goodHead (c : Char) : Prop :=
  isWsChar c = false ∧ c ≠ ']' ∧ c ≠ '\x7d' ∧ c ≠ ','

theorem digit_goodHead (c : Char) (h : isDigitCh c = true) :
    goodHead c ∧ c ≠ '"' ∧ c ≠ '[' ∧ c ≠ '\x7b' ∧ c ≠ '-' ∧ c ≠ 'n' ∧ c ≠ 't' ∧ c ≠ 'f' := by
  have hw : isWsChar c = false := by
    by_contra hw
    have hw2 : isWsChar c = true := by
      cases hx : isWsChar c with
      | false => exact absurd hx hw
      | true => rfl
    simp only [isWsChar, Bool.or_eq_true, decide_eq_true_eq] at hw2
    rcases hw2 with ((rfl | rfl) | rfl) | rfl <;> exact absurd h (by decide)
  refine ⟨⟨hw, ?_, ?_, ?_⟩, ?_, ?_, ?_, ?_, ?_, ?_, ?_⟩ <;>
    (intro he; subst he; exact absurd h (by decide))

theorem natDigits_head (n : Nat) :
    ∃ c t, natDigits n = c :: t ∧ isDigitCh c = true := by
  obtain ⟨c, t, hct⟩ := List.exists_cons_of_ne_nil (natDigits_ne_nil n)
  refine ⟨c, t, hct, natDigits_all_digits n c (by simp [hct])⟩

theorem renderV_head (p : Bool) (d : Nat) (j : Json) :
    ∃ c t, renderV p d j = c :: t ∧ goodHead c := by
  cases j with
  | null =>
    exact ⟨'n', ['u', 'l', 'l'], by simp [renderV, litNull], by decide, by decide, by decide,
      by decide⟩
  | bool b =>
    cases b with
    | true =>
      exact ⟨'t', ['r', 'u', 'e'], by simp [renderV, litTrue], by decide, by decide, by decide,
        by decide⟩
    | false =>
      exact ⟨'f', ['a', 'l', 's', 'e'], by simp [renderV, litFalse], by decide, by decide,
        by decide, by decide⟩
  | num n =>
    by_cases hn : n < 0
    · refine ⟨'-', natToChars n.natAbs, ?_, by decide, by decide, by decide, by decide⟩
      simp [renderV, intToChars, hn]
    · obtain ⟨c, t, hct, hd⟩ := natDigits_head n.natAbs
      refine ⟨c, t, ?_, (digit_goodHead c hd).1⟩
      simp [renderV, intToChars, hn, natToChars_eq_natDigits, hct]
  | str s =>
    exact ⟨'"', escapeList s.data ++ ['"'], by simp [renderV, renderStr], by decide, by decide,
      by decide, by decide⟩
  | arr items =>
    cases items with
    | nil => exact ⟨'[', [']'], by simp [renderV], by decide, by decide, by decide, by decide⟩
    | cons x xs =>
      exact ⟨'[', wsep p (d + 2) ++ renderItems p (d + 2) x xs ++ wsep p d ++ [']'],
        by simp [renderV], by decide, by decide, by decide, by decide⟩
  | obj fields =>
    cases fields with
    | nil =>
      exact ⟨'\x7b', ['\x7d'], by simp [renderV], by decide, by decide, by decide, by decide⟩
    | cons f fs =>
      exact ⟨'\x7b', wsep p (d + 2) ++ renderFields p (d + 2) f fs ++ wsep p d ++ ['\x7d'],
        by simp [renderV], by decide, by decide, by decide, by decide⟩

theorem renderItems_head (p : Bool) (d : Nat) (x : Json) (xs : List Json) :
    ∃ c t, renderItems p d x xs = c :: t ∧ goodHead c := by
  obtain ⟨c, t, hct, hg⟩ := renderV_head p d x
  cases xs with
  | nil => exact ⟨c, t, by simp [renderItems, hct], hg⟩
  | cons y ys =>
    refine ⟨c, t ++ ',' :: (wsep p d ++ renderItems p d y ys), ?_, hg⟩
    simp [renderItems, hct]

theorem renderV_length_pos (p : Bool) (d : Nat) (j : Json) :
    1 ≤ (renderV p d j).length := by
  obtain ⟨c, t, hct, _⟩ := renderV_head p d j
  simp [hct]

theorem renderItems_item_le (p : Bool) (d : Nat) :
    ∀ (xs : List Json) (x z : Json), (z = x ∨ z ∈ xs) →
      (renderV p d z).length ≤ (renderItems p d x xs).length := by
  intro xs
  induction xs with
  | nil =>
    intro x z hz
    rcases hz with rfl | hz
    · simp [renderItems]
    · simp at hz
  | cons y ys ih =>
    intro x z hz
    have hlen : (renderItems p d x (y :: ys)).length
        = (renderV p d x).length + 1 + (wsep p d).length + (renderItems p d y ys).length := by
      simp [renderItems]
      omega
    rcases hz with rfl | hz
    · omega
    · have := ih y z (List.mem_cons.mp hz)
      omega

theorem renderItems_count_le (p : Bool) (d : Nat) :
    ∀ (xs : List Json) (x : Json), (x :: xs).length ≤ (renderItems p d x xs).length := by
  intro xs
  induction xs with
  | nil =>
    intro x
    have := renderV_length_pos p d x
    simp [renderItems]
    omega
  | cons y ys ih =>
    intro x
    have h1 := ih y
    have h2 := renderV_length_pos p d x
    have hlen : (renderItems p d x (y :: ys)).length
        = (renderV p d x).length + 1 + (wsep p d).length + (renderItems p d y ys).length := by
      simp [renderItems]
      omega
    simp only [List.length_cons] at h1 ⊢
    omega

theorem renderKV_ge (p : Bool) (d : Nat) (k : String) (v : Json) :
    (renderV p d v).length + 3 ≤ (renderKV p d k v).length := by
  have : (renderKV p d k v).length
      = (renderStr k).length + 1 + (if p then [' '] else []).length + (renderV p d v).length := by
    simp [renderKV]
    omega
  have h2 : 2 ≤ (renderStr k).length := by
    simp [renderStr]
  omega

theorem renderFields_val_le (p : Bool) (d : Nat) :
    ∀ (fs : List (String × Json)) (f : String × Json) (k : String) (v : Json),
      ((k, v) = f ∨ (k, v) ∈ fs) →
      (renderV p d v).length + 3 ≤ (renderFields p d f fs).length := by
  intro fs
  induction fs with
  | nil =>
    intro f k v hf
    rcases hf with rfl | hf
    · simp only [renderFields]
      exact renderKV_ge p d k v
    · simp at hf
  | cons g gs ih =>
    intro f k v hf
    obtain ⟨k0, v0⟩ := f
    have hlen : (renderFields p d (k0, v0) (g :: gs)).length
        = (renderKV p d k0 v0).length + 1 + (wsep p d).length
          + (renderFields p d g gs).length := by
      simp [renderFields]
      omega
    rcases hf with heq | hf
    · have hk : k0 = k ∧ v0 = v := by
        have := heq.symm
        exact ⟨congrArg Prod.fst this, congrArg Prod.snd this⟩
      obtain ⟨rfl, rfl⟩ := hk
      have := renderKV_ge p d k0 v0
      omega
    · have := ih g k v (List.mem_cons.mp hf)
      omega

theorem renderFields_count_le (p : Bool) (d : Nat) :
    ∀ (fs : List (String × Json)) (f : String × Json),
      (f :: fs).length ≤ (renderFields p d f fs).length := by
  intro fs
  induction fs with
  | nil =>
    intro f
    obtain ⟨k, v⟩ := f
    have := renderKV_ge p d k v
    simp only [renderFields, List.length_cons, List.length_nil]
    omega
  | cons g gs ih =>
    intro f
    obtain ⟨k, v⟩ := f
    have h1 := ih g
    have := renderKV_ge p d k v
    have hlen : (renderFields p d (k, v) (g :: gs)).length
        = (renderKV p d k v).length + 1 + (wsep p d).length
          + (renderFields p d g gs).length := by
      simp [renderFields]
      omega
    simp only [List.length_cons] at h1 ⊢
    omega

theorem parseItemsWith_render (p : Bool) (d : Nat)
    (pv : List Char → Option (Json × List Char)) :
    ∀ (xs : List Json) (x : Json) (e : Nat) (rest : List Char) (fuel : Nat),
      (∀ z, (z = x ∨ z ∈ xs) → ∀ r2 : List Char, headNot isDigitCh r2 →
        pv (renderV p d z ++ r2) = some (z, r2)) →
      (x :: xs).length ≤ fuel →
      parseItemsWith pv fuel (renderItems p d x xs ++ wsep p e ++ ']' :: rest)
        = some (x :: xs, rest) := by
  intro xs
  induction xs with
  | nil =>
    intro x e rest fuel hpv hfuel
    cases fuel with
    | zero => simp at hfuel
    | succ g =>
      have h1 : renderItems p d x [] ++ wsep p e ++ ']' :: rest
          = renderV p d x ++ (wsep p e ++ ']' :: rest) := by
        simp [renderItems]
      have hnd : headNot isDigitCh (wsep p e ++ ']' :: rest) := by
        cases p <;> simp [wsep, headNot] <;> decide
      have hx := hpv x (Or.inl rfl) (wsep p e ++ ']' :: rest) hnd
      rw [h1]
      simp only [parseItemsWith, hx]
      rw [skipWs_wsep, skipWs_not ']' rest (by decide)]
      rfl
  | cons y ys ih =>
    intro x e rest fuel hpv hfuel
    cases fuel with
    | zero => simp at hfuel
    | succ g =>
      have h1 : renderItems p d x (y :: ys) ++ wsep p e ++ ']' :: rest
          = renderV p d x
            ++ (',' :: (wsep p d ++ (renderItems p d y ys ++ wsep p e ++ ']' :: rest))) := by
        simp [renderItems]
      have hnd : headNot isDigitCh
          (',' :: (wsep p d ++ (renderItems p d y ys ++ wsep p e ++ ']' :: rest))) := by
        simp [headNot]
        decide
      have hx := hpv x (Or.inl rfl) _ hnd
      rw [h1]
      simp only [parseItemsWith, hx]
      rw [skipWs_not ',' _ (by decide)]
      obtain ⟨c0, t0, hct, hg⟩ := renderItems_head p d y ys
      have hskip : skipWs (wsep p d ++ (renderItems p d y ys ++ wsep p e ++ ']' :: rest))
          = renderItems p d y ys ++ wsep p e ++ ']' :: rest := by
        rw [skipWs_wsep, hct]
        simp only [List.cons_append]
        exact skipWs_not c0 _ hg.1
      have hih := ih y e rest g
        (fun z hz r2 hr2 => hpv z (Or.inr (by
          rcases hz with rfl | hz
          · exact List.mem_cons_self _ _
          · exact List.mem_cons_of_mem _ hz)) r2 hr2)
        (by simp only [List.length_cons] at hfuel ⊢; omega)
      simp only [hskip, hih]

theorem renderFields_head (p : Bool) (d : Nat) (f : String × Json)
    (fs : List (String × Json)) :
    ∃ c t, renderFields p d f fs = c :: t ∧ isWsChar c = false ∧ c ≠ '\x7d' := by
  obtain ⟨k1, v1⟩ := f
  cases fs with
  | nil =>
    refine ⟨'"', (escapeList k1.data ++ ['"'])
      ++ ':' :: ((if p then [' '] else []) ++ renderV p d v1), ?_, by decide, by decide⟩
    simp [renderFields, renderKV, renderStr]
  | cons g2 gs2 =>
    refine ⟨'"', ((escapeList k1.data ++ ['"'])
      ++ ':' :: ((if p then [' '] else []) ++ renderV p d v1))
      ++ ',' :: (wsep p d ++ renderFields p d g2 gs2), ?_, by decide, by decide⟩
    simp [renderFields, renderKV, renderStr]

theorem parseFieldsWith_render (p : Bool) (d : Nat)
    (pv : List Char → Option (Json × List Char)) :
    ∀ (fs : List (String × Json)) (k : String) (v : Json) (e : Nat) (rest : List Char)
      (fuel : Nat),
      (∀ k2 v2, ((k2, v2) = (k, v) ∨ (k2, v2) ∈ fs) → ∀ r2 : List Char,
        headNot isDigitCh r2 → pv (renderV p d v2 ++ r2) = some (v2, r2)) →
      ((k, v) :: fs).length ≤ fuel →
      parseFieldsWith pv fuel (renderFields p d (k, v) fs ++ wsep p e ++ '\x7d' :: rest)
        = some ((k, v) :: fs, rest) := by
  intro fs
  induction fs with
  | nil =>
    intro k v e rest fuel hpv hfuel
    cases fuel with
    | zero => simp at hfuel
    | succ g =>
      have h1 : renderFields p d (k, v) [] ++ wsep p e ++ '\x7d' :: rest
          = '"' :: (escapeList k.data
              ++ '"' :: ':' :: ((if p then [' '] else [])
                ++ (renderV p d v ++ (wsep p e ++ '\x7d' :: rest)))) := by
        simp [renderFields, renderKV, renderStr]
      have hnd : headNot isDigitCh (wsep p e ++ '\x7d' :: rest) := by
        cases p <;> simp [wsep, headNot] <;> decide
      have hx := hpv k v (Or.inl rfl) (wsep p e ++ '\x7d' :: rest) hnd
      rw [h1]
      simp only [parseFieldsWith]
      rw [parseStringBody_escape k.data (':' :: ((if p then [' '] else [])
        ++ (renderV p d v ++ (wsep p e ++ '\x7d' :: rest))))]
      simp only
      rw [skipWs_not ':' _ (by decide)]
      simp only
      obtain ⟨c0, t0, hct, hg⟩ := renderV_head p d v
      have hskip : skipWs ((if p then [' '] else [])
          ++ (renderV p d v ++ (wsep p e ++ '\x7d' :: rest)))
          = renderV p d v ++ (wsep p e ++ '\x7d' :: rest) := by
        rw [skipWs_pad, hct]
        simp only [List.cons_append]
        exact skipWs_not c0 _ hg.1
      rw [hskip, hx]
      simp only
      rw [skipWs_wsep, skipWs_not '\x7d' rest (by decide)]
      rw [stringMk_data]
      rfl
  | cons g0 gs ih =>
    intro k v e rest fuel hpv hfuel
    cases fuel with
    | zero => simp at hfuel
    | succ g =>
      obtain ⟨k1, v1⟩ := g0
      have h1 : renderFields p d (k, v) ((k1, v1) :: gs) ++ wsep p e ++ '\x7d' :: rest
          = '"' :: (escapeList k.data
              ++ '"' :: ':' :: ((if p then [' '] else [])
                ++ (renderV p d v ++ (',' :: (wsep p d
                  ++ (renderFields p d (k1, v1) gs ++ wsep p e ++ '\x7d' :: rest)))))) := by
        simp [renderFields, renderKV, renderStr]
      have hnd : headNot isDigitCh (',' :: (wsep p d
          ++ (renderFields p d (k1, v1) gs ++ wsep p e ++ '\x7d' :: rest))) := by
        simp [headNot]
        decide
      have hx := hpv k v (Or.inl rfl) _ hnd
      rw [h1]
      simp only [parseFieldsWith]
      rw [parseStringBody_escape k.data]
      simp only
      rw [skipWs_not ':' _ (by decide)]
      simp only
      obtain ⟨c0, t0, hct, hg0⟩ := renderV_head p d v
      have hskip : skipWs ((if p then [' '] else [])
          ++ (renderV p d v ++ (',' :: (wsep p d
            ++ (renderFields p d (k1, v1) gs ++ wsep p e ++ '\x7d' :: rest)))))
          = renderV p d v ++ (',' :: (wsep p d
            ++ (renderFields p d (k1, v1) gs ++ wsep p e ++ '\x7d' :: rest))) := by
        rw [skipWs_pad, hct]
        simp only [List.cons_append]
        exact skipWs_not c0 _ hg0.1
      rw [hskip, hx]
      simp only
      rw [skipWs_not ',' _ (by decide)]
      simp only
      obtain ⟨kc, kt, hkct⟩ :
          ∃ kc kt, renderFields p d (k1, v1) gs ++ wsep p e ++ '\x7d' :: rest
            = kc :: kt ∧ isWsChar kc = false := by
        obtain ⟨c1, t1, hct1, hgg, _⟩ := renderFields_head p d (k1, v1) gs
        exact ⟨c1, t1 ++ wsep p e ++ '\x7d' :: rest, by simp [hct1], hgg⟩
      have hskip2 : skipWs (wsep p d
          ++ (renderFields p d (k1, v1) gs ++ wsep p e ++ '\x7d' :: rest))
          = renderFields p d (k1, v1) gs ++ wsep p e ++ '\x7d' :: rest := by
        rw [skipWs_wsep, hkct.1]
        exact skipWs_not kc _ hkct.2
      rw [hskip2]
      have hih := ih k1 v1 e rest g
        (fun k2 v2 hkv r2 hr2 => hpv k2 v2 (Or.inr (by
          rcases hkv with heq | hm
          · rw [heq]
            exact List.mem_cons_self _ _
          · exact List.mem_cons_of_mem _ hm)) r2 hr2)
        (by simp only [List.length_cons] at hfuel ⊢; omega)
      rw [hih, stringMk_data]


/-!
C2 groundwork: head-symbol evaluation lemmas for `parseVal`.
-/

theorem pv_quote (f : Nat) (r : List Char) :
    parseVal (f + 1) ('"' :: r) = parseAfterQuote r := rfl

theorem pv_lbracket (f : Nat) (r : List Char) :
    parseVal (f + 1) ('[' :: r) = parseArrBody (fun t => parseVal f t) f r := rfl

theorem pv_lbrace (f : Nat) (r : List Char) :
    parseVal (f + 1) ('\x7b' :: r) = parseObjBody (fun t => parseVal f t) f r := rfl

theorem pv_minus (f : Nat) (r : List Char) :
    parseVal (f + 1) ('-' :: r) = parseNeg r := rfl

theorem pv_nullLit (f : Nat) (r : List Char) :
    parseVal (f + 1) ('n' :: 'u' :: 'l' :: 'l' :: r) = some (.null, r) := rfl

theorem pv_trueLit (f : Nat) (r : List Char) :
    parseVal (f + 1) ('t' :: 'r' :: 'u' :: 'e' :: r) = some (.bool true, r) := rfl

theorem pv_falseLit (f : Nat) (r : List Char) :
    parseVal (f + 1) ('f' :: 'a' :: 'l' :: 's' :: 'e' :: r) = some (.bool false, r) := rfl

theorem pv_digit (f : Nat) (c : Char) (r : List Char)
    (h1 : ¬ c = '"') (h2 : ¬ c = '[') (h3 : ¬ c = '\x7b') (h4 : ¬ c = '-')
    (h5 : ¬ c = 'n') (h6 : ¬ c = 't') (h7 : ¬ c = 'f') :
    parseVal (f + 1) (c :: r) = parseNumHead (c :: r) := by
  rw [parseVal.eq_def]
  simp only [if_neg h1, if_neg h2, if_neg h3, if_neg h4, if_neg h5, if_neg h6, if_neg h7]

theorem parseVal_render :
    ∀ (F : Nat) (j : Json) (p : Bool) (d : Nat) (rest : List Char),
      (renderV p d j).length < F → headNot isDigitCh rest →
      parseVal F (renderV p d j ++ rest) = some (j, rest) := by
  intro F
  induction F using Nat.strong_induction_on with
  | _ F ih =>
    intro j p d rest hlen hnd
    cases F with
    | zero => omega
    | succ f =>
      cases j with
      | null =>
        rw [show renderV p d Json.null = ['n', 'u', 'l', 'l'] from by simp [renderV, litNull]]
        exact pv_nullLit f rest
      | bool b =>
        cases b with
        | true =>
          rw [show renderV p d (Json.bool true) = ['t', 'r', 'u', 'e'] from by simp [renderV, litTrue]]
          exact pv_trueLit f rest
        | false =>
          rw [show renderV p d (Json.bool false) = ['f', 'a', 'l', 's', 'e'] from by
            simp [renderV, litFalse]]
          exact pv_falseLit f rest
      | str s =>
        rw [show renderV p d (Json.str s) = '"' :: (escapeList s.data ++ ['"']) from by
          simp [renderV, renderStr]]
        simp only [List.cons_append, List.append_assoc, List.singleton_append, List.nil_append]
        rw [pv_quote]
        simp only [parseAfterQuote]
        rw [parseStringBody_escape s.data rest]
      | num n =>
        by_cases hn : n < 0
        · rw [show renderV p d (Json.num n) = '-' :: natDigits n.natAbs from by
            simp [renderV, intToChars, hn, natToChars_eq_natDigits]]
          simp only [List.cons_append]
          rw [pv_minus]
          simp only [parseNeg]
          rw [readNat_natDigits n.natAbs rest hnd]
          show some (Json.num (-((n.natAbs : Int))), rest) = some (Json.num n, rest)
          rw [show -((n.natAbs : Int)) = n from by omega]
        · obtain ⟨c, t, hct, hcd⟩ := natDigits_head n.natAbs
          have hrend : renderV p d (Json.num n) = c :: t := by
            simp [renderV, intToChars, hn, natToChars_eq_natDigits, hct]
          obtain ⟨hgh, hq, hlb, hob, hmn, hnn, htn, hfn⟩ := digit_goodHead c hcd
          rw [hrend]
          simp only [List.cons_append]
          rw [pv_digit f c (t ++ rest) hq hlb hob hmn hnn htn hfn]
          simp only [parseNumHead]
          rw [show c :: (t ++ rest) = natDigits n.natAbs ++ rest from by rw [hct]; rfl]
          rw [readNat_natDigits n.natAbs rest hnd]
          show some (Json.num ((n.natAbs : Int)), rest) = some (Json.num n, rest)
          rw [show ((n.natAbs : Int)) = n from by omega]
      | arr items =>
        cases items with
        | nil =>
          rw [show renderV p d (Json.arr []) = ['[', ']'] from by simp [renderV]]
          rfl
        | cons x xs =>
          rw [show renderV p d (Json.arr (x :: xs))
              = '[' :: (wsep p (d + 2) ++ renderItems p (d + 2) x xs ++ wsep p d ++ [']'])
            from by simp [renderV]]
          simp only [List.cons_append, List.append_assoc, List.singleton_append, List.nil_append]
          rw [pv_lbracket]
          simp only [parseArrBody]
          obtain ⟨c0, t0, hct0, hg0⟩ := renderItems_head p (d + 2) x xs
          have hskip : skipWs (wsep p (d + 2)
              ++ (renderItems p (d + 2) x xs ++ (wsep p d ++ ']' :: rest)))
              = renderItems p (d + 2) x xs ++ (wsep p d ++ ']' :: rest) := by
            rw [skipWs_wsep, hct0]
            simp only [List.cons_append]
            exact skipWs_not c0 _ hg0.1
          rw [hskip]
          rw [show (renderItems p (d + 2) x xs ++ (wsep p d ++ ']' :: rest)).head?
              = some c0 from by rw [hct0]; rfl]
          rw [if_neg (fun h => hg0.2.1 (Option.some.inj h))]
          have hsz : (renderV p d (Json.arr (x :: xs))).length
              = 1 + (wsep p (d + 2)).length + (renderItems p (d + 2) x xs).length
                + (wsep p d).length + 1 := by
            simp [renderV]
            omega
          have hpv : ∀ z, (z = x ∨ z ∈ xs) → ∀ r2 : List Char, headNot isDigitCh r2 →
              parseVal f (renderV p (d + 2) z ++ r2) = some (z, r2) := by
            intro z hz r2 hr2
            have h1 := renderItems_item_le p (d + 2) xs x z hz
            exact ih f (by omega) z p (d + 2) r2 (by omega) hr2
          have hcount : (x :: xs).length ≤ f := by
            have := renderItems_count_le p (d + 2) xs x
            omega
          have happ := parseItemsWith_render p (d + 2) (fun t => parseVal f t) xs x d rest f
            hpv hcount
          simp only [List.append_assoc] at happ
          rw [happ]
      | obj fields =>
        cases fields with
        | nil =>
          rw [show renderV p d (Json.obj []) = ['\x7b', '\x7d'] from by simp [renderV]]
          rfl
        | cons f0 fs =>
          obtain ⟨k0, v0⟩ := f0
          rw [show renderV p d (Json.obj ((k0, v0) :: fs))
              = '\x7b' :: (wsep p (d + 2) ++ renderFields p (d + 2) (k0, v0) fs
                ++ wsep p d ++ ['\x7d'])
            from by simp [renderV]]
          simp only [List.cons_append, List.append_assoc, List.singleton_append, List.nil_append]
          rw [pv_lbrace]
          simp only [parseObjBody]
          obtain ⟨c0, t0, hct0, hg0, hg1⟩ := renderFields_head p (d + 2) (k0, v0) fs
          have hskip : skipWs (wsep p (d + 2)
              ++ (renderFields p (d + 2) (k0, v0) fs ++ (wsep p d ++ '\x7d' :: rest)))
              = renderFields p (d + 2) (k0, v0) fs ++ (wsep p d ++ '\x7d' :: rest) := by
            rw [skipWs_wsep, hct0]
            simp only [List.cons_append]
            exact skipWs_not c0 _ hg0
          rw [hskip]
          rw [show (renderFields p (d + 2) (k0, v0) fs ++ (wsep p d ++ '\x7d' :: rest)).head?
              = some c0 from by rw [hct0]; rfl]
          rw [if_neg (fun h => hg1 (Option.some.inj h))]
          have hsz : (renderV p d (Json.obj ((k0, v0) :: fs))).length
              = 1 + (wsep p (d + 2)).length + (renderFields p (d + 2) (k0, v0) fs).length
                + (wsep p d).length + 1 := by
            simp [renderV]
            omega
          have hpv : ∀ k2 v2, ((k2, v2) = (k0, v0) ∨ (k2, v2) ∈ fs) →
              ∀ r2 : List Char, headNot isDigitCh r2 →
              parseVal f (renderV p (d + 2) v2 ++ r2) = some (v2, r2) := by
            intro k2 v2 hkv r2 hr2
            have h1 := renderFields_val_le p (d + 2) fs (k0, v0) k2 v2 hkv
            exact ih f (by omega) v2 p (d + 2) r2 (by omega) hr2
          have hcount : ((k0, v0) :: fs).length ≤ f := by
            have := renderFields_count_le p (d + 2) fs (k0, v0)
            omega
          have happ := parseFieldsWith_render p (d + 2) (fun t => parseVal f t) fs k0 v0 d rest f
            hpv hcount
          simp only [List.append_assoc] at happ
          rw [happ]

theorem jsonParse_render (p : Bool) (j : Json) :
    jsonParse (String.mk (renderV p 0 j)) = some j := by
  obtain ⟨c, t, hct, hg⟩ := renderV_head p 0 j
  have hskip : skipWs (renderV p 0 j) = renderV p 0 j := by
    rw [hct]
    exact skipWs_not c t hg.1
  have hmain := parseVal_render ((renderV p 0 j).length + 1) j p 0 [] (by omega) trivial
  rw [List.append_nil] at hmain
  simp only [jsonParse]
  rw [show (String.mk (renderV p 0 j)).length = (renderV p 0 j).length from rfl]
  rw [hskip, hmain]
  rfl

/-- C2: exporting the locations list and importing the exact exported
document restores the same locations sequence (and raises no alert). -/
theorem export_import_round_trip (m : AppModel) :
    (onUploadFile (downloadJSON m.locations) m).1.locations = m.locations
    ∧ (onUploadFile (downloadJSON m.locations) m).2 = none := by
  have h := jsonParse_render true (Json.arr m.locations)
  constructor <;> simp [onUploadFile, downloadJSON, stringifyPretty, h, persistEffect]
